import Mathlib

/-!
Verification of the tooljob batch framework (`tooljob/batch_class.py` and
`tooljob/trackers/*.py`) against its natural-language specification.

The Python code is shallowly embedded:
* Python strings are lists of unicode code points (`PyStr`);
* Python exceptions are values of `PyError` (exception class name + message),
  and fallible functions return `Except PyError _`;
* the filesystem is modelled by the predicates/valuations a tracker consults
  (`path_exists`, `getctime`, directory listings), passed as parameters;
* the SQL `jobs` table is an association list keyed by job hash.
-/

namespace Tooljob

/-- Python strings, modelled as their list of unicode code points. -/
abbrev PyStr := List Char

/-- Turn a Lean string literal into a `PyStr`. -/
def pys (s : String) : PyStr := s.toList

/-- A raised Python exception: the exception class name and its message. -/
inductive PyError where
  | err (cls : String) (msg : String)
deriving DecidableEq, Repr

/-- A value appearing in `JobData`.  `str`/`int`/`bool` are the simple scalars
(`bool` is a subclass of `int` in Python but is kept separate here because
`str()` renders it differently); `listv` stands for a non-scalar value such as
the `[1, 2]` of the specification's unsupported-data scenario. -/
inductive Value where
  | s (v : PyStr)
  | i (n : Int)
  | b (v : Bool)
  | listv (vs : List Value)
deriving Repr

/-- `isinstance(value, (str, int, bool))`. -/
def Value.isScalar : Value → Bool
  | .s _ => true
  | .i _ => true
  | .b _ => true
  | .listv _ => false

/-- One job's data: either a bare scalar or a dict.  A Python dict is an
insertion-ordered association list whose keys are distinct. -/
inductive JobData where
  | scalar (v : Value)
  | dict (items : List (PyStr × Value))

/-- Code-point lexicographic strict comparison of Python strings, the order
used by `sorted` on `str` keys. -/
def strLt : PyStr → PyStr → Bool
  | _, [] => false
  | [], _ :: _ => true
  | a :: as, b :: bs => if a = b then strLt as bs else decide (a < b)

/-- The non-strict key order that `sorted(job_data.items())` realizes on the
items of a dict: tuples are compared componentwise, and since dict keys are
distinct only the first components (the keys) are ever compared. -/
def keyLe {β : Type} (x y : PyStr × β) : Prop := strLt y.1 x.1 = false

instance {β : Type} : DecidableRel (keyLe (β := β)) := fun x y =>
  inferInstanceAs (Decidable (strLt y.1 x.1 = false))

/-- `sorted(job_data.items())` (stable sort by key). -/
def sortedItems {β : Type} (items : List (PyStr × β)) : List (PyStr × β) :=
  items.insertionSort keyLe

/-- `Batch.get_job_list_name`: the `name` attribute when set, else the name of
the concrete class. -/
def get_job_list_name (name : Option PyStr) (class_name : PyStr) : PyStr :=
  match name with
  | some n => n
  | none => class_name

namespace Batch

/-- One `key + '_' + job_data[key]` token of the job name.  Python `+` on a
`str` left operand requires a `str` right operand, so an `int`/`bool` value
raises `TypeError` here (for a dict, `job_data[key]` is the item's value). -/
def mkToken : PyStr × Value → Except PyError PyStr
  | (k, .s v) => .ok (k ++ '_' :: v)
  | (_, .i _) => .error (.err "TypeError" "can only concatenate str (not \"int\") to str")
  | (_, .b _) => .error (.err "TypeError" "can only concatenate str (not \"bool\") to str")
  | (_, .listv _) => .error (.err "TypeError" "can only concatenate str (not \"list\") to str")

/-- `'__'.join(tokens)`. -/
def joinDunder : List PyStr → PyStr
  | [] => []
  | [t] => t
  | t :: ts => t ++ '_' :: '_' :: joinDunder ts

/-- The extra `key + '_' + value` tokens appended for `parameters`
(`Mapping[str, str]`, iterated in sorted order). -/
def paramTokens : Option (List (PyStr × PyStr)) → List PyStr
  | none => []
  | some ps => (sortedItems ps).map (fun kv => kv.1 ++ '_' :: kv.2)

/-- `Batch.get_job_name` on explicit job data.  For a scalar it returns
`get_job_list_name() + str(job_data)`.  For a dict it first checks every value
with `isinstance(value, (str, int, bool))` (raising `NotImplementedError`
otherwise), then builds `key + '_' + job_data[key]` tokens over the items in
sorted-key order, appends sorted parameter tokens, and returns the list name
concatenated directly (no separator) with the `'__'`-join of the tokens. -/
def get_job_name (list_name : PyStr) (job_data : JobData)
    (parameters : Option (List (PyStr × PyStr))) : Except PyError PyStr :=
  match job_data with
  | .scalar (.s v) => .ok (list_name ++ v)
  | .scalar (.i n) => .ok (list_name ++ (toString n).toList)
  | .scalar (.b true) => .ok (list_name ++ pys "True")
  | .scalar (.b false) => .ok (list_name ++ pys "False")
  | .scalar (.listv _) =>
      .error (.err "NotImplementedError" "must define get_job_name() for this type of job_data")
  | .dict items =>
      if items.all (fun kv => kv.2.isScalar) then
        match (sortedItems items).mapM mkToken with
        | .error e => .error e
        | .ok tokens =>
            .ok (list_name ++ joinDunder (tokens ++ paramTokens parameters))
      else
        .error (.err "NotImplementedError" "must define job_name() for this type of job_data")

/-- Extend the first piece of a split with one more leading character. -/
def consHead (c : Char) : List PyStr → List PyStr
  | [] => [[c]]
  | t :: ts => (c :: t) :: ts

/-- `token.split('_')` (split on every single underscore, keeping empties). -/
def splitUnder : PyStr → List PyStr
  | [] => [[]]
  | '_' :: rest => [] :: splitUnder rest
  | c :: rest => consHead c (splitUnder rest)

/-- `name.split('__')` (split on each leftmost non-overlapping `'__'`). -/
def splitDunder : PyStr → List PyStr
  | [] => [[]]
  | '_' :: '_' :: rest => [] :: splitDunder rest
  | c :: rest => consHead c (splitDunder rest)

/-- `Batch._parse_name_token`.  `bool(token)` on a `str` never raises: it is
the truthiness of the string, so the `int(token)` and plain-string fallbacks
of the try/except chain are unreachable and every token parses to a `bool`. -/
def parse_name_token (token : PyStr) : Value := .b (!token.isEmpty)

/-- `job_data[key] = value` on a dict modelled as an association list:
overwrite in place when the key is present, else append. -/
def dictSet (d : List (PyStr × Value)) (k : PyStr) (v : Value) :
    List (PyStr × Value) :=
  match d with
  | [] => [(k, v)]
  | (k', v') :: rest => if k' = k then (k', v) :: rest else (k', v') :: dictSet rest k v

/-- `key, value = pair.split('_')`: raises `ValueError` unless the split
yields exactly two parts. -/
def splitPair (pair : PyStr) : Except PyError (PyStr × PyStr) :=
  match splitUnder pair with
  | [k, v] => .ok (k, v)
  | _ => .error (.err "ValueError" "pair.split did not yield exactly two values")

/-- `Batch.parse_job_name`: split the name on `'__'`, split each token into
key and value, coerce the value with `_parse_name_token`, and accumulate into
a dict. -/
def parse_job_name (name : PyStr) : Except PyError (List (PyStr × Value)) :=
  (splitDunder name).foldlM
    (fun d pair =>
      match splitPair pair with
      | .error e => .error e
      | .ok kv => .ok (dictSet d kv.1 (parse_name_token kv.2)))
    []

/-- `are_jobs_complete(indices)`: map the tracker's `is_job_complete` over the
indices. -/
def are_jobs_complete (is_job_complete : Nat → Bool) (indices : List Nat) :
    List Bool :=
  indices.map is_job_complete

/-- `Batch.get_remaining_jobs` (the default strategy): enumerate
`are_jobs_complete(range(n))` and keep the positions whose flag is false. -/
def get_remaining_jobs (n : Nat) (is_job_complete : Nat → Bool) : List Nat :=
  (((are_jobs_complete is_job_complete (List.range n)).enum).filter
    (fun jc => !jc.2)).map (fun jc => jc.1)

/-- The indices `orchestrate_jobs` hands to the serial/parallel executor: it
queries the remaining jobs first and returns immediately — dispatching
nothing — when none remain. -/
def orchestrate_dispatched (n : Nat) (is_job_complete : Nat → Bool) : List Nat :=
  let remaining := get_remaining_jobs n is_job_complete
  if remaining.length = 0 then [] else remaining

end Batch

/-- JSON escaping of the characters `json.dumps` treats specially that can
occur here (quote, backslash and the common control characters; further
escapes do not affect any stated property). -/
def jsonEscapeChar (c : Char) : PyStr :=
  if c = '\\' then ['\\', '\\']
  else if c = '"' then ['\\', '"']
  else if c = '\n' then ['\\', 'n']
  else if c = '\t' then ['\\', 't']
  else if c = '\r' then ['\\', 'r']
  else [c]

/-- `json.dumps` rendering of a string: quoted and escaped. -/
def jsonStr (v : PyStr) : PyStr := '"' :: (v.map jsonEscapeChar).flatten ++ ['"']

mutual

/-- `json.dumps` rendering of one value. -/
def renderJson : Value → PyStr
  | .s v => jsonStr v
  | .i n => (toString n).toList
  | .b true => pys "true"
  | .b false => pys "false"
  | .listv vs => '[' :: renderJsonList vs ++ [']']

/-- The body of a JSON array (`json.dumps` separates elements by a comma and
a space). -/
def renderJsonList : List Value → PyStr
  | [] => []
  | [v] => renderJson v
  | v :: vs => renderJson v ++ ',' :: ' ' :: renderJsonList vs

end

/-- One `"key": value` member of a JSON object. -/
def renderPair (kv : PyStr × Value) : PyStr :=
  jsonStr kv.1 ++ ':' :: ' ' :: renderJson kv.2

/-- Comma-and-space join of JSON object members. -/
def joinCommaSpace : List PyStr → PyStr
  | [] => []
  | [t] => t
  | t :: ts => t ++ ',' :: ' ' :: joinCommaSpace ts

/-- `json.dumps(job_data, sort_keys=True)`: a dict is rendered with its keys
in sorted order between braces. -/
def json_dumps_sorted : JobData → PyStr
  | .scalar v => renderJson v
  | .dict items =>
      Char.ofNat 123 ::
        joinCommaSpace ((sortedItems items).map renderPair) ++ [Char.ofNat 125]

namespace Batch

/-- `Batch.get_job_hash`:
`hashlib.md5(json.dumps(job_data, sort_keys=True).encode()).hexdigest()`.
The md5 hex digest is an external pure function of the serialized string and
is abstracted as the parameter `md5_hexdigest`. -/
def get_job_hash (md5_hexdigest : PyStr → PyStr) (job_data : JobData) : PyStr :=
  md5_hexdigest (json_dumps_sorted job_data)

end Batch

namespace FileTracker

/-- `FileTracker.is_job_complete`: `os.path.exists` of the job's deterministic
output path. -/
def is_job_complete (path_exists : PyStr → Bool) (output_path : PyStr) : Bool :=
  path_exists output_path

/-- `FileTracker.get_remaining_jobs`: the indices `i` in `range(n)` whose
output filename is a member of `os.listdir(output_dir)`. -/
def get_remaining_jobs (n : Nat) (output_filename : Nat → PyStr)
    (listdir : List PyStr) : List Nat :=
  (List.range n).filter (fun i => listdir.contains (output_filename i))

end FileTracker

namespace MultifileTracker

/-- `MultifileTracker.is_job_complete`: every named output path exists. -/
def is_job_complete (output_paths : List PyStr) (path_exists : PyStr → Bool) :
    Bool :=
  output_paths.all path_exists

/-- `MultifileTracker.get_job_start_time`: `min` of the creation times of the
output paths that are files.  Python `min` over an empty sequence raises
`ValueError`. -/
def get_job_start_time (output_paths : List PyStr) (isfile : PyStr → Bool)
    (getctime : PyStr → Nat) : Except PyError Nat :=
  match (output_paths.filter isfile).map getctime with
  | [] => .error (.err "ValueError" "min() arg is an empty sequence")
  | t :: ts => .ok (ts.foldl Nat.min t)

/-- `MultifileTracker.get_job_end_time`: `max` of the modification times of
the output paths that are files; `max` over an empty sequence raises
`ValueError`. -/
def get_job_end_time (output_paths : List PyStr) (isfile : PyStr → Bool)
    (getmtime : PyStr → Nat) : Except PyError Nat :=
  match (output_paths.filter isfile).map getmtime with
  | [] => .error (.err "ValueError" "max() arg is an empty sequence")
  | t :: ts => .ok (ts.foldl Nat.max t)

end MultifileTracker

namespace SqlTracker

/-- One row of the `jobs` table (the `name` column is never written by the
tracker code under verification and is omitted). -/
structure JobRow where
  job_data : JobData
  start_time : Nat
  end_time : Option Nat

/-- The `jobs` table, keyed by the `job_hash` primary-key column. -/
abbrev JobsTable := List (PyStr × JobRow)

/-- `SqlTracker.start_job`: insert a row for the job's hash with
`start_time = now` and `end_time = None`. -/
def start_job (db : JobsTable) (job_hash : PyStr) (job_data : JobData)
    (now : Nat) : JobsTable :=
  db ++ [(job_hash, { job_data := job_data, start_time := now, end_time := none })]

/-- `SqlTracker.end_job`: update `end_time = now` on the rows whose
`job_hash` matches. -/
def end_job (db : JobsTable) (job_hash : PyStr) (now : Nat) : JobsTable :=
  db.map (fun r =>
    if r.1 = job_hash then (r.1, { r.2 with end_time := some now }) else r)

/-- `SqlTracker.get_job_start_time` (`output_format='cell_or_none'`): the
row's `start_time`, or absent when there is no row for the hash. -/
def get_job_start_time (db : JobsTable) (job_hash : PyStr) : Option Nat :=
  match db.find? (fun r => r.1 == job_hash) with
  | none => none
  | some r => some r.2.start_time

/-- `SqlTracker.get_job_end_time` (`cell_or_none`): the row's `end_time`
(itself nullable), or absent when there is no row. -/
def get_job_end_time (db : JobsTable) (job_hash : PyStr) : Option Nat :=
  match db.find? (fun r => r.1 == job_hash) with
  | none => none
  | some r => r.2.end_time

/-- `SqlTracker.is_job_complete`: the stored `end_time` is not `None`. -/
def is_job_complete (db : JobsTable) (job_hash : PyStr) : Bool :=
  (get_job_end_time db job_hash).isSome

end SqlTracker

namespace Batch

/-- `Batch.start_job`: the body is `pass` — in particular
`self.tracker.start_job` is not called, so the tracker state is unchanged. -/
def start_job (db : SqlTracker.JobsTable) (_i : Nat) : SqlTracker.JobsTable := db

/-- `Batch.end_job`: the body is `pass` — `self.tracker.end_job` is not
called. -/
def end_job (db : SqlTracker.JobsTable) (_i : Nat) : SqlTracker.JobsTable := db

/-- `Batch.run_job(i)`: `self.start_job(i); self.execute_job(i);
self.end_job(i)`.  An exception from `execute_job` propagates, skipping
`end_job`.  The result pairs the outcome with the tracker backend's state. -/
def run_job (execute_job : Nat → Except PyError Unit) (i : Nat)
    (db : SqlTracker.JobsTable) : Except PyError Unit × SqlTracker.JobsTable :=
  let db1 := start_job db i
  match execute_job i with
  | .error e => (.error e, db1)
  | .ok _ => (.ok (), end_job db1 i)

/-- `Batch.serial_execute`: `for job in jobs: self.run_job(job)` (tqdm merely
wraps the iteration).  `run_job` installs no handler, so the first exception
propagates and ends the loop.  Returns the indices on which `run_job` was
invoked together with the propagated error, if any. -/
def serial_execute (execute_job : Nat → Except PyError Unit)
    (jobs : List Nat) : List Nat × Option PyError :=
  match jobs with
  | [] => ([], none)
  | j :: rest =>
      match execute_job j with
      | .error e => ([j], some e)
      | .ok _ =>
          let r := serial_execute execute_job rest
          (j :: r.1, r.2)

end Batch

/-! ### Order facts about `strLt` -/

theorem strLt_irrefl : ∀ a : PyStr, strLt a a = false
  | [] => rfl
  | _ :: as => by simp [strLt, strLt_irrefl as]

theorem strLt_trans : ∀ {a b c : PyStr},
    strLt a b = true → strLt b c = true → strLt a c = true := by
  intro a
  induction a with
  | nil =>
      intro b c hab hbc
      cases b with
      | nil => simp [strLt] at hab
      | cons y ys =>
          cases c with
          | nil => simp [strLt] at hbc
          | cons z zs => simp [strLt]
  | cons x xs ih =>
      intro b c hab hbc
      cases b with
      | nil => simp [strLt] at hab
      | cons y ys =>
          cases c with
          | nil => simp [strLt] at hbc
          | cons z zs =>
              simp only [strLt] at hab hbc ⊢
              by_cases hxy : x = y
              · subst hxy
                by_cases hyz : x = z
                · subst hyz
                  simp only [if_pos rfl] at hab hbc ⊢
                  exact ih hab hbc
                · simp only [if_pos rfl] at hab
                  simpa [hyz] using hbc
              · by_cases hyz : y = z
                · subst hyz
                  simpa [hxy] using hab
                · simp only [if_neg hxy, decide_eq_true_eq] at hab
                  simp only [if_neg hyz, decide_eq_true_eq] at hbc
                  have hxz : x < z := lt_trans hab hbc
                  have : x ≠ z := ne_of_lt hxz
                  simp [this, hxz]

theorem strLt_asymm {a b : PyStr} (h : strLt a b = true) : strLt b a = false := by
  by_contra hc
  have h2 : strLt b a = true := by
    cases hba : strLt b a with
    | false => exact absurd hba hc
    | true => rfl
  have := strLt_trans h h2
  rw [strLt_irrefl] at this
  exact Bool.false_ne_true this

theorem strEq_of_not_lt : ∀ {a b : PyStr},
    strLt a b = false → strLt b a = false → a = b := by
  intro a
  induction a with
  | nil =>
      intro b h1 _
      cases b with
      | nil => rfl
      | cons y ys => simp [strLt] at h1
  | cons x xs ih =>
      intro b h1 h2
      cases b with
      | nil => simp [strLt] at h2
      | cons y ys =>
          simp only [strLt] at h1 h2
          by_cases hxy : x = y
          · subst hxy
            simp only [if_pos rfl] at h1 h2
            rw [ih h1 h2]
          · simp only [if_neg hxy, decide_eq_false_iff_not, not_lt] at h1
            have hyx : y = x → False := fun h => hxy h.symm
            simp only [if_neg hyx, decide_eq_false_iff_not, not_lt] at h2
            exact absurd (le_antisymm h2 h1) hxy

instance {β : Type} : IsTotal (PyStr × β) keyLe where
  total x y := by
    unfold keyLe
    cases h : strLt y.1 x.1 with
    | false => exact Or.inl rfl
    | true => exact Or.inr (strLt_asymm h)

instance {β : Type} : IsTrans (PyStr × β) keyLe where
  trans a b c hab hbc := by
    unfold keyLe at *
    by_contra hc
    have h1 : strLt c.1 a.1 = true := by
      cases h : strLt c.1 a.1 with
      | false => exact absurd h hc
      | true => rfl
    by_cases h2 : strLt a.1 b.1 = true
    · have := strLt_trans h1 h2
      rw [hbc] at this
      exact absurd this (by decide)
    · have h2f : strLt a.1 b.1 = false := by
        cases h : strLt a.1 b.1 with
        | false => rfl
        | true => exact absurd h h2
      have hab2 : a.1 = b.1 := strEq_of_not_lt h2f hab
      rw [hab2] at h1
      rw [hbc] at h1
      exact absurd h1 (by decide)

/-- On a key-sorted list with distinct keys the key order is strict. -/
theorem pairwise_strict_of_sorted_nodup {β : Type} {l : List (PyStr × β)}
    (hs : l.Sorted keyLe) (hn : (l.map Prod.fst).Nodup) :
    l.Pairwise (fun x y => strLt x.1 y.1 = true) := by
  have hne : l.Pairwise (fun x y => x.1 ≠ y.1) := List.pairwise_map.mp hn
  refine (List.Pairwise.and hs hne).imp ?_
  rintro x y ⟨hle, hxy⟩
  cases h : strLt x.1 y.1 with
  | true => rfl
  | false => exact absurd (strEq_of_not_lt h hle) hxy

/-- Two permutations of the same distinct-key item set sort identically:
the canonical sorted-key order of a dict does not depend on insertion
order. -/
theorem sortedItems_perm_eq {l₁ l₂ : List (PyStr × Value)}
    (hp : l₁.Perm l₂) (hn : (l₁.map Prod.fst).Nodup) :
    sortedItems l₁ = sortedItems l₂ := by
  have hps1 : (sortedItems l₁).Perm l₁ := List.perm_insertionSort _ _
  have hps2 : (sortedItems l₂).Perm l₂ := List.perm_insertionSort _ _
  have hs1 : (sortedItems l₁).Sorted keyLe := List.sorted_insertionSort _ _
  have hs2 : (sortedItems l₂).Sorted keyLe := List.sorted_insertionSort _ _
  have hn2 : (l₂.map Prod.fst).Nodup := ((hp.map Prod.fst).nodup_iff).mp hn
  have hn1s : ((sortedItems l₁).map Prod.fst).Nodup :=
    ((hps1.map Prod.fst).nodup_iff).mpr hn
  have hn2s : ((sortedItems l₂).map Prod.fst).Nodup :=
    ((hps2.map Prod.fst).nodup_iff).mpr hn2
  have hstrict1 := pairwise_strict_of_sorted_nodup hs1 hn1s
  have hstrict2 := pairwise_strict_of_sorted_nodup hs2 hn2s
  have hs1x : (sortedItems l₁).Sorted
      (fun x y => strLt x.1 y.1 = true ∨ x = y) := hstrict1.imp fun h => Or.inl h
  have hs2x : (sortedItems l₂).Sorted
      (fun x y => strLt x.1 y.1 = true ∨ x = y) := hstrict2.imp fun h => Or.inl h
  haveI : IsAntisymm (PyStr × Value)
      (fun x y => strLt x.1 y.1 = true ∨ x = y) := by
    constructor
    intro a b hab hba
    rcases hab with hab | rfl <;> rcases hba with hba | h
    · have := strLt_asymm hab
      rw [hba] at this
      exact absurd this.symm Bool.false_ne_true
    · exact h.symm
    · rfl
    · rfl
  exact List.eq_of_perm_of_sorted (hps1.trans (hp.trans hps2.symm)) hs1x hs2x

/-! ### Enumeration facts for the default remaining-jobs computation -/

theorem enumFrom_map {α β : Type} (f : α → β) :
    ∀ (l : List α) (k : Nat),
      List.enumFrom k (l.map f) = (List.enumFrom k l).map (fun p => (p.1, f p.2))
  | [], _ => rfl
  | a :: t, k => by
      simp only [List.map_cons, List.enumFrom, List.map]
      rw [enumFrom_map f t (k + 1)]

theorem enumFrom_range' :
    ∀ (n k : Nat),
      List.enumFrom k (List.range' k n) = (List.range' k n).map (fun i => (i, i))
  | 0, _ => rfl
  | n + 1, k => by
      simp only [List.range', List.enumFrom, List.map]
      rw [enumFrom_range' n (k + 1)]

/-- The default `Batch.get_remaining_jobs` computes exactly the filter of
`range(n)` by the negation of `is_job_complete`. -/
theorem get_remaining_jobs_eq (n : Nat) (is_job_complete : Nat → Bool) :
    Batch.get_remaining_jobs n is_job_complete
      = (List.range n).filter (fun j => !is_job_complete j) := by
  unfold Batch.get_remaining_jobs Batch.are_jobs_complete
  rw [List.enum, List.range_eq_range', enumFrom_map, enumFrom_range']
  rw [List.map_map, List.filter_map, List.map_map]
  rw [show ((fun p : Nat × Bool => p.1) ∘
        ((fun p : Nat × Nat => (p.1, is_job_complete p.2)) ∘ fun i => (i, i)))
      = id from rfl]
  rw [List.map_id]
  rfl

/-! ### Split/join lemmas for job names -/

namespace Batch

theorem splitUnder_cons_ne {c : Char} (t : List Char) (h : c ≠ '_') :
    splitUnder (c :: t) = consHead c (splitUnder t) := by
  rw [splitUnder.eq_def]
  split
  next heq => exact List.noConfusion heq
  next heq =>
    injection heq with h1 _
    exact absurd h1 h
  next heq =>
    injection heq with h1 h2
    subst h1
    subst h2
    rfl

theorem splitDunder_cons_ne {c : Char} (t : List Char) (h : c ≠ '_') :
    splitDunder (c :: t) = consHead c (splitDunder t) := by
  rw [splitDunder.eq_def]
  split
  next heq => exact List.noConfusion heq
  next heq =>
    injection heq with h1 _
    exact absurd h1 h
  next heq =>
    injection heq with h1 h2
    subst h1
    subst h2
    rfl

theorem splitDunder_us_cons {d : Char} (t : List Char) (h : d ≠ '_') :
    splitDunder ('_' :: d :: t) = consHead '_' (splitDunder (d :: t)) := by
  rw [splitDunder.eq_def]
  split
  next heq => exact List.noConfusion heq
  next heq =>
    injection heq with _ h2
    injection h2 with h3 _
    exact absurd h3 h
  next heq =>
    injection heq with h1 h2
    subst h1
    subst h2
    rfl



theorem splitUnder_no {x : PyStr} (h : '_' ∉ x) : splitUnder x = [x] := by
  induction x with
  | nil => rfl
  | cons c t ih =>
      have hc : c ≠ '_' := fun hh => h (hh ▸ List.mem_cons_self c t)
      rw [splitUnder_cons_ne t hc, ih (fun hm => h (List.mem_cons_of_mem c hm))]
      rfl

theorem splitUnder_append {x : PyStr} (y : PyStr) (h : '_' ∉ x) :
    splitUnder (x ++ '_' :: y) = x :: splitUnder y := by
  induction x with
  | nil => rfl
  | cons c t ih =>
      have hc : c ≠ '_' := fun hh => h (hh ▸ List.mem_cons_self c t)
      rw [List.cons_append, splitUnder_cons_ne _ hc,
        ih (fun hm => h (List.mem_cons_of_mem c hm))]
      rfl

theorem splitDunder_no {x : PyStr} (h : '_' ∉ x) : splitDunder x = [x] := by
  induction x with
  | nil => rfl
  | cons c t ih =>
      have hc : c ≠ '_' := fun hh => h (hh ▸ List.mem_cons_self c t)
      rw [splitDunder_cons_ne t hc, ih (fun hm => h (List.mem_cons_of_mem c hm))]
      rfl

theorem splitDunder_token {x y : PyStr} (hx : '_' ∉ x) (hy : '_' ∉ y)
    (hyne : y ≠ []) : splitDunder (x ++ '_' :: y) = [x ++ '_' :: y] := by
  induction x with
  | nil =>
      cases y with
      | nil => exact absurd rfl hyne
      | cons d t =>
          have hd : d ≠ '_' := fun hh => hy (hh ▸ List.mem_cons_self d t)
          rw [List.nil_append, splitDunder_us_cons t hd, splitDunder_no hy]
          rfl
  | cons c t ih =>
      have hc : c ≠ '_' := fun hh => hx (hh ▸ List.mem_cons_self c t)
      rw [List.cons_append, splitDunder_cons_ne _ hc,
        ih (fun hm => hx (List.mem_cons_of_mem c hm))]
      rfl

theorem splitDunder_app_no {y : PyStr} (b : PyStr) (hy : '_' ∉ y) :
    splitDunder (y ++ '_' :: '_' :: b) = y :: splitDunder b := by
  induction y with
  | nil => rfl
  | cons c t ih =>
      have hc : c ≠ '_' := fun hh => hy (hh ▸ List.mem_cons_self c t)
      rw [List.cons_append, splitDunder_cons_ne _ hc,
        ih (fun hm => hy (List.mem_cons_of_mem c hm))]
      rfl

theorem splitDunder_token_app {x y : PyStr} (b : PyStr) (hx : '_' ∉ x)
    (hy : '_' ∉ y) (hyne : y ≠ []) :
    splitDunder ((x ++ '_' :: y) ++ '_' :: '_' :: b)
      = (x ++ '_' :: y) :: splitDunder b := by
  induction x with
  | nil =>
      cases y with
      | nil => exact absurd rfl hyne
      | cons d t =>
          have hd : d ≠ '_' := fun hh => hy (hh ▸ List.mem_cons_self d t)
          rw [List.nil_append, List.cons_append, List.cons_append,
            splitDunder_us_cons _ hd,
            show d :: (t ++ '_' :: '_' :: b) = (d :: t) ++ '_' :: '_' :: b from rfl,
            splitDunder_app_no b hy]
          rfl
  | cons c t ih =>
      have hc : c ≠ '_' := fun hh => hx (hh ▸ List.mem_cons_self c t)
      rw [List.cons_append, List.cons_append, splitDunder_cons_ne _ hc,
        ih (fun hm => hx (List.mem_cons_of_mem c hm))]
      rfl

theorem joinDunder_cons {t : PyStr} {ts : List PyStr} (h : ts ≠ []) :
    joinDunder (t :: ts) = t ++ '_' :: '_' :: joinDunder ts := by
  cases ts with
  | nil => exact absurd rfl h
  | cons a l => rfl

theorem joinDunder_fuse (L a : PyStr) (X : List PyStr) :
    L ++ joinDunder (a :: X) = joinDunder ((L ++ a) :: X) := by
  cases X with
  | nil => rfl
  | cons b l =>
      exact (List.append_assoc L a ('_' :: '_' :: joinDunder (b :: l))).symm



theorem splitDunder_join :
    ∀ (l : List (PyStr × PyStr)), l ≠ [] →
      (∀ kv ∈ l, '_' ∉ kv.1 ∧ '_' ∉ kv.2 ∧ kv.2 ≠ []) →
      splitDunder (joinDunder (l.map (fun kv => kv.1 ++ '_' :: kv.2)))
        = l.map (fun kv => kv.1 ++ '_' :: kv.2)
  | [], h, _ => absurd rfl h
  | [kv], _, hc => by
      obtain ⟨h1, h2, h3⟩ := hc kv (List.mem_singleton.mpr rfl)
      simp only [List.map]
      exact splitDunder_token h1 h2 h3
  | kv :: kv' :: rest, _, hc => by
      obtain ⟨h1, h2, h3⟩ := hc kv (by simp)
      have ih := splitDunder_join (kv' :: rest) (by simp)
        (fun x hx => hc x (by simp [hx]))
      simp only [List.map] at ih ⊢
      rw [joinDunder_cons (by simp), splitDunder_token_app _ h1 h2 h3, ih]

theorem mapM_mkToken :
    ∀ l : List (PyStr × PyStr),
      (l.map (fun kv => (kv.1, Value.s kv.2))).mapM mkToken
        = Except.ok (l.map (fun kv => kv.1 ++ '_' :: kv.2))
  | [] => rfl
  | kv :: rest => by
      simp only [List.map, List.mapM_cons, mapM_mkToken rest, mkToken]
      rfl

theorem parse_fold_ok :
    ∀ (l : List (PyStr × PyStr)) (d : List (PyStr × Value)),
      (∀ kv ∈ l, '_' ∉ kv.1 ∧ '_' ∉ kv.2) →
      (l.map (fun kv => kv.1 ++ '_' :: kv.2)).foldlM
          (fun d pair =>
            match splitPair pair with
            | .error e => .error e
            | .ok kv => .ok (dictSet d kv.1 (parse_name_token kv.2))) d
        = Except.ok
            (l.foldl (fun acc kv => dictSet acc kv.1 (parse_name_token kv.2)) d)
  | [], _, _ => rfl
  | kv :: rest, d, hc => by
      obtain ⟨h1, h2⟩ := hc kv (by simp)
      have hsp : splitPair (kv.1 ++ '_' :: kv.2) = .ok (kv.1, kv.2) := by
        unfold splitPair
        rw [splitUnder_append _ h1, splitUnder_no h2]
      simp only [List.map, List.foldlM_cons, hsp]
      exact parse_fold_ok rest _ (fun x hx => hc x (by simp [hx]))

theorem dictSet_head {d : List (PyStr × Value)} {hk : PyStr} (k : PyStr)
    (hd : d.head? = some (hk, Value.b true)) :
    (dictSet d k (Value.b true)).head? = some (hk, Value.b true) := by
  cases d with
  | nil => simp at hd
  | cons p rest =>
      have hp : p = (hk, Value.b true) := by simpa using hd
      subst hp
      unfold dictSet
      by_cases h : hk = k
      · simp [h]
      · simp [h]

theorem foldl_dictSet_head :
    ∀ (l : List (PyStr × PyStr)) (d : List (PyStr × Value)) (hk : PyStr),
      (∀ kv ∈ l, kv.2 ≠ []) →
      d.head? = some (hk, Value.b true) →
      (l.foldl (fun acc kv => dictSet acc kv.1 (parse_name_token kv.2)) d).head?
        = some (hk, Value.b true)
  | [], _, _, _, hd => hd
  | kv :: rest, d, hk, hc, hd => by
      have hne : kv.2 ≠ [] := hc kv (by simp)
      have hbt : parse_name_token kv.2 = Value.b true := by
        cases h : kv.2 with
        | nil => exact absurd h hne
        | cons a t => simp [parse_name_token, h]
      simp only [List.foldl]
      refine foldl_dictSet_head rest _ hk (fun x hx => hc x (by simp [hx])) ?_
      rw [hbt]
      exact dictSet_head kv.1 hd




end Batch

/-! ### Claim theorems -/

/-- C1: refuted (code bug).  `Batch.run_job` invokes `Batch.start_job` and
`Batch.end_job`, whose bodies are `pass`; `self.tracker.start_job` /
`self.tracker.end_job` (implemented by `SqlTracker`) are never called, so the
tracker backend records neither a start nor an end for any job: the claimed
atomic unit `{Tracker.start_job; execute_job; Tracker.end_job}` does not
happen.  The tracker state after `run_job` always equals the state before,
and after a successful `run_job(0)` against a fresh SqlTracker backend the
stored start time is still absent and the job is still incomplete. -/
theorem run_job_records_no_tracker_events :
    (∀ (execute_job : Nat → Except PyError Unit) (i : Nat)
        (db : SqlTracker.JobsTable),
      (Batch.run_job execute_job i db).2 = db) ∧
    SqlTracker.get_job_start_time (Batch.run_job (fun _ => .ok ()) 0 []).2
      (pys "somehash") = none ∧
    SqlTracker.is_job_complete (Batch.run_job (fun _ => .ok ()) 0 []).2
      (pys "somehash") = false := by
  refine ⟨?_, rfl, rfl⟩
  intro execute_job i db
  unfold Batch.run_job Batch.start_job Batch.end_job
  cases execute_job i <;> rfl

/-- C3: refuted (code bug).  `FileTracker.get_remaining_jobs` keeps the
indices whose output file IS in the directory listing — the completed jobs —
instead of the incomplete ones: over an empty directory with 3 jobs it
returns `[]`, while the default filter of `0..n` by `is_job_complete`
(which the claim and the spec describe) returns `[0, 1, 2]`. -/
theorem file_tracker_remaining_inverted :
    ∀ output_filename : Nat → PyStr,
      FileTracker.get_remaining_jobs 3 output_filename [] = [] ∧
      Batch.get_remaining_jobs 3
        (fun i => FileTracker.is_job_complete (fun _ => false)
          (output_filename i)) = [0, 1, 2] := by
  intro output_filename
  exact ⟨rfl, rfl⟩

/-- C4: refuted (code bug).  The dict branch of `get_job_name` whitelists
`str`, `int` and `bool` values, but the token construction
`key + '_' + job_data[key]` concatenates the raw value onto a `str`, which
raises `TypeError` for an `int` (or `bool`) value — so `get_job_name` does
not succeed on `{"id": 1}` even though every value is in
{string, integer, boolean}. -/
theorem get_job_name_typeerror_on_int_value :
    Batch.get_job_name (pys "MyBatch") (.dict [(pys "id", .i 1)]) none
      = .error (.err "TypeError" "can only concatenate str (not \"int\") to str") := rfl

/-- C5 counterexample: on `{"id": [1, 2]}` the name derivation fails with the
builtin `NotImplementedError` (the same exception class the framework uses
for missing abstract-method overrides), not with a dedicated
`UnsupportedJobDataError` — no such class exists in the code. -/
theorem get_job_name_error_is_not_dedicated_class :
    Batch.get_job_name (pys "MyBatch")
        (.dict [(pys "id", .listv [.i 1, .i 2])]) none
      = .error (.err "NotImplementedError"
          "must define job_name() for this type of job_data") ∧
    "NotImplementedError" ≠ "UnsupportedJobDataError" :=
  ⟨rfl, by decide⟩

/-- C5 (amended): for every dict job data containing a non-scalar value,
`get_job_name` fails with a deliberately raised `NotImplementedError`
carrying the message `must define job_name() for this type of job_data` —
a controlled raise at the value-type guard, before any token is built (and
`get_job_name` consults no tracker state, so it cannot disturb other jobs'
completion records). -/
theorem get_job_name_notimplemented_on_nonscalar
    (list_name : PyStr) (items : List (PyStr × Value))
    (parameters : Option (List (PyStr × PyStr)))
    (h : ∃ kv ∈ items, kv.2.isScalar = false) :
    Batch.get_job_name list_name (.dict items) parameters
      = .error (.err "NotImplementedError"
          "must define job_name() for this type of job_data") := by
  obtain ⟨kv, hmem, hkv⟩ := h
  have hall : items.all (fun kv => kv.2.isScalar) = false := by
    rw [List.all_eq_false]
    exact ⟨kv, hmem, by simp [hkv]⟩
  simp only [Batch.get_job_name, hall]
  simp

/-- C5 witness: the amended theorem applied to the specification's concrete
scenario `{"id": [1, 2]}`. -/
theorem get_job_name_notimplemented_on_nonscalar_witness :
    Batch.get_job_name (pys "MyBatch")
        (.dict [(pys "id", .listv [.i 1, .i 2])]) none
      = .error (.err "NotImplementedError"
          "must define job_name() for this type of job_data") :=
  get_job_name_notimplemented_on_nonscalar (pys "MyBatch") _ none
    ⟨(pys "id", .listv [.i 1, .i 2]), List.mem_singleton.mpr rfl, rfl⟩

/-- C6: refuted (code bug).  `_parse_name_token` first tries `bool(token)`,
which on a Python `str` never raises (it is the string's truthiness), so the
`int` and plain-string fallbacks are dead code and every value comes back as
a `bool`: the token value `"5"` parses to `True`, not to the int `5`, and a
non-numeric value also parses to `True`, not to a string.  Moreover
`pair.split('_')` splits on every underscore (not the first), so a token
whose value part contains an underscore does not parse at all: unpacking
raises `ValueError`. -/
theorem parse_job_name_coerces_every_value_to_bool :
    Batch.parse_job_name (pys "k_5") = .ok [(pys "k", .b true)] ∧
    Batch.parse_name_token (pys "5") = .b true ∧
    Batch.parse_name_token (pys "hello") = .b true ∧
    Batch.parse_job_name (pys "k_a_b")
      = .error (.err "ValueError" "pair.split did not yield exactly two values") :=
  ⟨rfl, rfl, rfl, rfl⟩

/-- C7: refuted (code bug).  When none of a job's named outputs exist,
`MultifileTracker.is_job_complete` is indeed false, but
`get_job_start_time` / `get_job_end_time` do not return an absent value:
they call `min` / `max` on the empty list of existing-output times, which
raises `ValueError`. -/
theorem multifile_times_error_on_zero_outputs :
    MultifileTracker.is_job_complete [pys "out.json"] (fun _ => false) = false ∧
    MultifileTracker.get_job_start_time [pys "out.json"] (fun _ => false)
        (fun _ => 0)
      = .error (.err "ValueError" "min() arg is an empty sequence") ∧
    MultifileTracker.get_job_end_time [pys "out.json"] (fun _ => false)
        (fun _ => 0)
      = .error (.err "ValueError" "max() arg is an empty sequence") :=
  ⟨rfl, rfl, rfl⟩

/-- C8 counterexample: with jobs `[0, 1, 2]` dispatched serially and
`execute_job` failing on job 0, the serial loop runs `run_job` only for job
0 and the error propagates: jobs 1 and 2 are never executed, contradicting
the claim that every remaining job in the dispatched sequence is still
executed. -/
theorem serial_execute_aborts_batch_on_error :
    Batch.serial_execute
        (fun j => if j = 0 then .error (.err "RuntimeError" "boom") else .ok ())
        [0, 1, 2]
      = ([0], some (.err "RuntimeError" "boom")) ∧
    1 ∉ (Batch.serial_execute
        (fun j => if j = 0 then .error (.err "RuntimeError" "boom") else .ok ())
        [0, 1, 2]).1 := by
  refine ⟨rfl, ?_⟩
  intro h
  rw [show (Batch.serial_execute
      (fun j => if j = 0 then .error (.err "RuntimeError" "boom") else .ok ())
      [0, 1, 2]).1 = [0] from rfl] at h
  simp at h

/-- C8 (amended): in serial dispatch an exception raised by `execute_job`
is NOT isolated at the `run_job` boundary: it propagates out of `run_job`
and `serial_execute`, so the jobs after the failing one in the dispatched
sequence are not executed and the batch-level loop is aborted. -/
theorem serial_execute_stops_at_first_error
    (execute_job : Nat → Except PyError Unit) (pre post : List Nat)
    (f : Nat) (e : PyError)
    (hpre : ∀ j ∈ pre, execute_job j = .ok ())
    (hf : execute_job f = .error e) :
    Batch.serial_execute execute_job (pre ++ f :: post) = (pre ++ [f], some e) := by
  induction pre with
  | nil => simp [Batch.serial_execute, hf]
  | cons a t ih =>
      have ha : execute_job a = .ok () := hpre a (by simp)
      have ht := ih (fun j hj => hpre j (by simp [hj]))
      simp [Batch.serial_execute, ha, ht]

/-- C8 witness: the amended theorem at the concrete dispatch `[0, 1, 2]`
with job 1 failing. -/
theorem serial_execute_stops_at_first_error_witness :
    Batch.serial_execute
        (fun j => if j = 1 then .error (.err "RuntimeError" "boom") else .ok ())
        ([0] ++ 1 :: [2])
      = ([0] ++ [1], some (.err "RuntimeError" "boom")) :=
  serial_execute_stops_at_first_error _ [0] [2] 1 _
    (by
      intro j hj
      rw [List.mem_singleton] at hj
      subst hj
      rfl)
    rfl

/-- C9: confirmed.  `get_job_hash` hashes
`json.dumps(job_data, sort_keys=True)`; for two dicts that are equal as
key-value mappings — the same items possibly in different insertion order,
with distinct keys as every dict has — the canonical sorted-key
serializations coincide, so the digests are identical whatever the (pure)
md5 function returns; and as a pure function of that serialization the hash
is the same on every call. -/
theorem get_job_hash_insertion_order_independent
    (md5_hexdigest : PyStr → PyStr) (items₁ items₂ : List (PyStr × Value))
    (hp : items₁.Perm items₂) (hn : (items₁.map Prod.fst).Nodup) :
    Batch.get_job_hash md5_hexdigest (.dict items₁)
      = Batch.get_job_hash md5_hexdigest (.dict items₂) := by
  simp only [Batch.get_job_hash, json_dumps_sorted]
  rw [sortedItems_perm_eq hp hn]

/-- C9 witness: the same two items supplied in the two insertion orders. -/
theorem get_job_hash_insertion_order_independent_witness :
    Batch.get_job_hash id
        (.dict [(pys "b", .i 2), (pys "a", .s (pys "x"))])
      = Batch.get_job_hash id
        (.dict [(pys "a", .s (pys "x")), (pys "b", .i 2)]) :=
  get_job_hash_insertion_order_independent id _ _
    (List.Perm.swap _ _ _) (by decide)

/-- C2: confirmed.  Let `c₀` be the backend's completion state when
`orchestrate_jobs` first runs (it dispatches exactly
`get_remaining_jobs n c₀`) and `c₁` the state after that run.  If the first
run was full — every dispatched job ended complete — and the persistent
backend kept the already-complete jobs complete, then afterwards
`get_remaining_jobs` is empty and a second `orchestrate_jobs` takes the
empty-remaining short-circuit, dispatching zero jobs to the executor. -/
theorem orchestrate_twice_dispatches_nothing (n : Nat) (c₀ c₁ : Nat → Bool)
    (h₁ : ∀ j ∈ Batch.get_remaining_jobs n c₀, c₁ j = true)
    (h₂ : ∀ j, c₀ j = true → c₁ j = true) :
    Batch.get_remaining_jobs n c₁ = [] ∧
    Batch.orchestrate_dispatched n c₁ = [] := by
  have hrem : Batch.get_remaining_jobs n c₁ = [] := by
    rw [get_remaining_jobs_eq]
    rw [List.filter_eq_nil_iff]
    intro j hj
    simp only [Bool.not_eq_true', Bool.not_eq_false]
    cases h : c₀ j with
    | true => exact h₂ j h
    | false =>
        apply h₁ j
        rw [get_remaining_jobs_eq, List.mem_filter]
        exact ⟨hj, by simp [h]⟩
  refine ⟨hrem, ?_⟩
  unfold Batch.orchestrate_dispatched
  simp [hrem]

/-- C2 witness: three jobs, none complete before the first run, all complete
after it. -/
theorem orchestrate_twice_dispatches_nothing_witness :
    Batch.get_remaining_jobs 3 (fun _ => true) = [] ∧
    Batch.orchestrate_dispatched 3 (fun _ => true) = [] :=
  orchestrate_twice_dispatches_nothing 3 (fun _ => false) (fun _ => true)
    (fun _ _ => rfl) (fun _ _ => rfl)

/-- C10: confirmed.  For dict job data (with the string values required for
name generation to succeed, no underscores in the list name, the keys or the
values, nonempty values, and a nonempty list name), `get_job_name`
concatenates the job-list name (the `name` attribute when set, otherwise the
class name) directly onto the first sorted key with no separator: the first
`'__'`-token of the generated name is `list_name ++ first_key ++ '_' ++
first_value`, and `parse_job_name` on the full generated name returns a dict
whose first key is `list_name ++ first_key`, which differs from the original
first key. -/
theorem get_job_name_fuses_list_name_into_first_token
    (name : Option PyStr) (class_name : PyStr) (k₀ v₀ : PyStr)
    (rest : List (PyStr × PyStr))
    (hL : get_job_list_name name class_name ≠ [])
    (hLu : '_' ∉ get_job_list_name name class_name)
    (hk : '_' ∉ k₀) (hv : '_' ∉ v₀) (hvne : v₀ ≠ [])
    (hrest : ∀ kv ∈ rest, '_' ∉ kv.1 ∧ '_' ∉ kv.2 ∧ kv.2 ≠ [])
    (hsorted : ((k₀, v₀) :: rest).Pairwise (fun x y => strLt x.1 y.1 = true)) :
    ∃ (nm : PyStr) (d : List (PyStr × Value)),
      Batch.get_job_name (get_job_list_name name class_name)
          (.dict (((k₀, v₀) :: rest).map (fun kv => (kv.1, Value.s kv.2)))) none
        = .ok nm ∧
      (Batch.splitDunder nm).head?
        = some ((get_job_list_name name class_name ++ k₀) ++ '_' :: v₀) ∧
      Batch.parse_job_name nm = .ok d ∧
      d.head? = some (get_job_list_name name class_name ++ k₀, Value.b true) ∧
      get_job_list_name name class_name ++ k₀ ≠ k₀ := by
  set L := get_job_list_name name class_name with hLdef
  set items := ((k₀, v₀) :: rest).map (fun kv => (kv.1, Value.s kv.2)) with hitems
  have hLk : '_' ∉ L ++ k₀ := by
    intro hm
    rcases List.mem_append.mp hm with hm | hm
    · exact hLu hm
    · exact hk hm
  have hfused : ∀ kv ∈ (L ++ k₀, v₀) :: rest, '_' ∉ kv.1 ∧ '_' ∉ kv.2 ∧ kv.2 ≠ [] := by
    intro kv hkv
    rcases List.mem_cons.mp hkv with rfl | hkv
    · exact ⟨hLk, hv, hvne⟩
    · exact hrest kv hkv
  -- the sort is the identity on the already-sorted item list
  have hsortedV : items.Sorted keyLe := by
    show items.Pairwise keyLe
    rw [hitems, List.pairwise_map]
    refine hsorted.imp ?_
    intro a b hab
    exact strLt_asymm hab
  have hsi : sortedItems items = items := hsortedV.insertionSort_eq
  have hall : items.all (fun kv => kv.2.isScalar) = true := by
    rw [hitems, List.all_eq_true]
    intro kv hkv
    rcases List.mem_map.mp hkv with ⟨x, _, rfl⟩
    rfl
  -- evaluate get_job_name
  have hname : Batch.get_job_name L (.dict items) none
      = .ok (L ++ Batch.joinDunder
          (((k₀, v₀) :: rest).map (fun kv => kv.1 ++ '_' :: kv.2))) := by
    simp only [Batch.get_job_name, hall, if_true, hsi]
    rw [hitems, Batch.mapM_mkToken]
    simp [Batch.paramTokens]
  -- the list name fuses into the first token
  have hfuse : L ++ Batch.joinDunder
        (((k₀, v₀) :: rest).map (fun kv => kv.1 ++ '_' :: kv.2))
      = Batch.joinDunder
        (((L ++ k₀, v₀) :: rest).map (fun kv => kv.1 ++ '_' :: kv.2)) := by
    simp only [List.map]
    rw [Batch.joinDunder_fuse]
    rw [show L ++ (k₀ ++ '_' :: v₀) = (L ++ k₀) ++ '_' :: v₀ from
      (List.append_assoc L k₀ ('_' :: v₀)).symm]
  have hsplit : Batch.splitDunder
        (Batch.joinDunder (((L ++ k₀, v₀) :: rest).map (fun kv => kv.1 ++ '_' :: kv.2)))
      = ((L ++ k₀, v₀) :: rest).map (fun kv => kv.1 ++ '_' :: kv.2) :=
    Batch.splitDunder_join _ (by simp) hfused
  have hparse : Batch.parse_job_name
        (Batch.joinDunder (((L ++ k₀, v₀) :: rest).map (fun kv => kv.1 ++ '_' :: kv.2)))
      = .ok (((L ++ k₀, v₀) :: rest).foldl
          (fun acc kv => Batch.dictSet acc kv.1 (Batch.parse_name_token kv.2)) []) := by
    unfold Batch.parse_job_name
    rw [hsplit]
    exact Batch.parse_fold_ok _ _ (fun kv hkv => ⟨(hfused kv hkv).1, (hfused kv hkv).2.1⟩)
  have hbt : Batch.parse_name_token v₀ = Value.b true := by
    cases h : v₀ with
    | nil => exact absurd h hvne
    | cons a t => simp [Batch.parse_name_token, h]
  have hhead : (((L ++ k₀, v₀) :: rest).foldl
        (fun acc kv => Batch.dictSet acc kv.1 (Batch.parse_name_token kv.2)) []).head?
      = some (L ++ k₀, Value.b true) := by
    simp only [List.foldl]
    refine Batch.foldl_dictSet_head rest _ _ (fun kv hkv => (hrest kv hkv).2.2) ?_
    rw [hbt]
    rfl
  have hne : L ++ k₀ ≠ k₀ := by
    intro h
    have hlen := congrArg List.length h
    rw [List.length_append] at hlen
    have : L.length = 0 := by omega
    exact hL (List.length_eq_zero.mp this)
  refine ⟨_, _, hname, ?_, ?_, hhead, hne⟩
  · rw [hfuse, hsplit]
    rfl
  · rw [hfuse]
    exact hparse

/-- C10 witness: list name `MyBatch` (from the class name), job data
`[("id", "a")]`: the generated name is `MyBatchid_a` and parsing recovers
first key `MyBatchid`, not `id`. -/
theorem get_job_name_fuses_list_name_into_first_token_witness :
    ∃ (nm : PyStr) (d : List (PyStr × Value)),
      Batch.get_job_name (get_job_list_name none (pys "MyBatch"))
          (.dict ([((pys "id"), (pys "a"))].map (fun kv => (kv.1, Value.s kv.2)))) none
        = .ok nm ∧
      (Batch.splitDunder nm).head?
        = some ((get_job_list_name none (pys "MyBatch") ++ pys "id") ++ '_' :: pys "a") ∧
      Batch.parse_job_name nm = .ok d ∧
      d.head? = some (get_job_list_name none (pys "MyBatch") ++ pys "id", Value.b true) ∧
      get_job_list_name none (pys "MyBatch") ++ pys "id" ≠ pys "id" :=
  get_job_name_fuses_list_name_into_first_token none (pys "MyBatch")
    (pys "id") (pys "a") []
    (by decide) (by decide) (by decide) (by decide) (by decide)
    (by simp)
    (List.pairwise_singleton _ _)

end Tooljob
